import Mathlib

/-!
Verification of the echopype conversion core against its specification.

The development shallowly embeds the code of `echopype/convert/parsed_to_zarr.py`
(padded multi-index builder, chunk partitioner, ragged array writer) and of
`echopype/convert/convert_ui.py` (multi-file combine engine).  Pandas/NumPy
values are modelled as Lean lists; `NaN` is an explicit `Scalar.nan` sentinel;
Python exceptions are modelled by `Except` with a `PyErr` error type.
-/

namespace Echopype

/-- A numeric sample value as stored in a datagram: either a real number
(abstracted to `Int`, since only shape and identity matter here) or the
IEEE `NaN` padding sentinel used by the code. -/
inductive Scalar where
  | nan : Scalar
  | val : Int → Scalar
deriving DecidableEq, Repr

/-- Python exceptions raised by the embedded code paths. -/
inductive PyErr where
  | zeroDivision
  | reshapeMismatch
  | duplicateIndex
  | indexError
  | unboundLocal (name : String)
  | removeError (fileId : Nat)
deriving DecidableEq, Repr

/-! ### pandas `Series.unique` / `Index.unique`

`pandas.unique` returns the distinct values in order of first appearance.
`pdUniqueAux seen xs` drops the values already in `seen`. -/

def pdUniqueAux {α : Type} [DecidableEq α] : List α → List α → List α
  | _, [] => []
  | seen, x :: xs =>
      if x ∈ seen then pdUniqueAux seen xs else x :: pdUniqueAux (x :: seen) xs

/-- The distinct values of `xs` in order of first appearance (pandas `.unique()`). -/
def pdUnique {α : Type} [DecidableEq α] (xs : List α) : List α :=
  pdUniqueAux [] xs

theorem mem_pdUniqueAux {α : Type} [DecidableEq α] (a : α) (xs : List α) :
    ∀ seen : List α, a ∈ pdUniqueAux seen xs ↔ (a ∈ xs ∧ a ∉ seen) := by
  induction xs with
  | nil => intro seen; simp [pdUniqueAux]
  | cons x xs ih =>
      intro seen
      by_cases hx : x ∈ seen
      · rw [pdUniqueAux, if_pos hx, ih]
        simp only [List.mem_cons]
        constructor
        · rintro ⟨h1, h2⟩; exact ⟨Or.inr h1, h2⟩
        · rintro ⟨h1 | h1, h2⟩
          · exact absurd (h1 ▸ hx) h2
          · exact ⟨h1, h2⟩
      · rw [pdUniqueAux, if_neg hx]
        simp only [List.mem_cons, ih]
        by_cases hax : a = x
        · subst hax; tauto
        · tauto

theorem mem_pdUnique {α : Type} [DecidableEq α] (a : α) (xs : List α) :
    a ∈ pdUnique xs ↔ a ∈ xs := by
  rw [pdUnique, mem_pdUniqueAux]; simp

theorem nodup_pdUniqueAux {α : Type} [DecidableEq α] (xs : List α) :
    ∀ seen : List α, (pdUniqueAux seen xs).Nodup := by
  induction xs with
  | nil => intro seen; simp [pdUniqueAux]
  | cons x xs ih =>
      intro seen
      by_cases hx : x ∈ seen
      · rw [pdUniqueAux, if_pos hx]; exact ih seen
      · rw [pdUniqueAux, if_neg hx, List.nodup_cons]
        refine ⟨fun hmem => ?_, ih (x :: seen)⟩
        rw [mem_pdUniqueAux] at hmem
        exact hmem.2 (List.mem_cons_self _ _)

theorem nodup_pdUnique {α : Type} [DecidableEq α] (xs : List α) :
    (pdUnique xs).Nodup :=
  nodup_pdUniqueAux xs []

theorem pdUniqueAux_eq_self {α : Type} [DecidableEq α] (xs : List α) :
    ∀ seen : List α, xs.Nodup → (∀ a ∈ xs, a ∉ seen) → pdUniqueAux seen xs = xs := by
  induction xs with
  | nil => intro seen _ _; rfl
  | cons x xs ih =>
      intro seen hnd hdisj
      rw [List.nodup_cons] at hnd
      rw [pdUniqueAux, if_neg (hdisj x (List.mem_cons_self _ _))]
      congr 1
      refine ih (x :: seen) hnd.2 fun a ha => ?_
      intro hmem
      rcases List.mem_cons.1 hmem with rfl | hmem
      · exact hnd.1 ha
      · exact hdisj a (List.mem_cons_of_mem _ ha) hmem

theorem pdUnique_eq_self {α : Type} [DecidableEq α] (xs : List α) (h : xs.Nodup) :
    pdUnique xs = xs :=
  pdUniqueAux_eq_self xs [] h (by simp)

theorem pdUniqueAux_congr {α : Type} [DecidableEq α] (xs : List α) :
    ∀ s₁ s₂ : List α, (∀ a, a ∈ s₁ ↔ a ∈ s₂) → pdUniqueAux s₁ xs = pdUniqueAux s₂ xs := by
  induction xs with
  | nil => intro _ _ _; rfl
  | cons x xs ih =>
      intro s₁ s₂ h
      by_cases hx : x ∈ s₁
      · rw [pdUniqueAux, if_pos hx, pdUniqueAux, if_pos ((h x).1 hx)]
        exact ih s₁ s₂ h
      · rw [pdUniqueAux, if_neg hx, pdUniqueAux, if_neg (fun hc => hx ((h x).2 hc))]
        congr 1
        refine ih (x :: s₁) (x :: s₂) fun a => ?_
        simp only [List.mem_cons, h a]

theorem pdUniqueAux_append {α : Type} [DecidableEq α] (xs : List α) :
    ∀ (seen : List α) (ys : List α),
      pdUniqueAux seen (xs ++ ys) = pdUniqueAux seen xs ++ pdUniqueAux (xs ++ seen) ys := by
  induction xs with
  | nil => intro seen ys; simp [pdUniqueAux]
  | cons x xs ih =>
      intro seen ys
      by_cases hx : x ∈ seen
      · rw [List.cons_append, pdUniqueAux, if_pos hx, pdUniqueAux, if_pos hx, ih]
        congr 1
        refine pdUniqueAux_congr ys _ _ fun a => ?_
        simp only [List.mem_append, List.cons_append, List.mem_cons]
        by_cases hax : a = x
        · subst hax; tauto
        · tauto
      · rw [List.cons_append, pdUniqueAux, if_neg hx, pdUniqueAux, if_neg hx, ih,
          List.cons_append]
        congr 2
        refine pdUniqueAux_congr ys _ _ fun a => ?_
        simp only [List.mem_append, List.mem_cons, List.cons_append]
        tauto

theorem pdUniqueAux_eq_nil {α : Type} [DecidableEq α] (ys : List α) :
    ∀ seen : List α, (∀ y ∈ ys, y ∈ seen) → pdUniqueAux seen ys = [] := by
  induction ys with
  | nil => intro _ _; rfl
  | cons y ys ih =>
      intro seen h
      rw [pdUniqueAux, if_pos (h y (List.mem_cons_self _ _))]
      exact ih seen fun a ha => h a (List.mem_cons_of_mem _ ha)

/-- `pdUnique` of a list in which each element of a nodup list `xs` is
repeated `n ≥ 1` times consecutively recovers `xs`. -/
theorem pdUniqueAux_flatMap_replicate {α : Type} [DecidableEq α] (n : Nat) (hn : 1 ≤ n)
    (xs : List α) : ∀ seen : List α, xs.Nodup → (∀ a ∈ xs, a ∉ seen) →
      pdUniqueAux seen (xs.flatMap (fun t => List.replicate n t)) = xs := by
  induction xs with
  | nil => intro _ _ _; rfl
  | cons x xs ih =>
      intro seen hnd hdisj
      rw [List.nodup_cons] at hnd
      obtain ⟨m, rfl⟩ : ∃ m, n = m + 1 := ⟨n - 1, by omega⟩
      rw [List.flatMap_cons, List.replicate_succ, List.cons_append, pdUniqueAux,
        if_neg (hdisj x (List.mem_cons_self _ _)), pdUniqueAux_append]
      have h1 : pdUniqueAux (x :: seen) (List.replicate m x) = [] :=
        pdUniqueAux_eq_nil _ _ fun y hy =>
          (List.eq_of_mem_replicate hy) ▸ List.mem_cons_self _ _
      have h2 : pdUniqueAux (List.replicate m x ++ x :: seen)
          (xs.flatMap (fun t => List.replicate (m + 1) t)) = xs := by
        rw [pdUniqueAux_congr _ (List.replicate m x ++ x :: seen) (x :: seen)
          (fun a => by
            simp only [List.mem_append, List.mem_replicate, List.mem_cons]
            tauto)]
        refine ih (x :: seen) hnd.2 fun a ha => ?_
        intro hmem
        rcases List.mem_cons.1 hmem with rfl | hmem
        · exact hnd.1 ha
        · exact hdisj a (List.mem_cons_of_mem _ ha) hmem
      rw [h1, h2, List.nil_append]

/-- `pdUnique` of `k ≥ 1` consecutive copies of a nodup list `ys` recovers `ys`. -/
theorem pdUnique_flatMap_const {α β : Type} [DecidableEq β] (xs : List α) (hxs : xs ≠ [])
    (ys : List β) (hnd : ys.Nodup) :
    pdUnique (xs.flatMap (fun _ => ys)) = ys := by
  obtain ⟨x, rest, rfl⟩ : ∃ x rest, xs = x :: rest := by
    cases xs with
    | nil => exact absurd rfl hxs
    | cons x rest => exact ⟨x, rest, rfl⟩
  rw [List.flatMap_cons, pdUnique, pdUniqueAux_append]
  have h1 : pdUniqueAux [] ys = ys := pdUniqueAux_eq_self ys [] hnd (by simp)
  have h2 : pdUniqueAux (ys ++ []) (rest.flatMap (fun _ => ys)) = [] := by
    refine pdUniqueAux_eq_nil _ _ fun y hy => ?_
    rw [List.mem_flatMap] at hy
    obtain ⟨a, _, hy⟩ := hy
    simp only [List.mem_append]
    exact Or.inl hy
  rw [h1, h2, List.append_nil]

/-! ### `pd.MultiIndex.from_product`

`listProd xs ys` is the cartesian product in row-major (timestamp-major)
order, exactly the order produced by `pd.MultiIndex.from_product`. -/

def listProd {α β : Type} (xs : List α) (ys : List β) : List (α × β) :=
  xs.flatMap (fun a => ys.map (fun b => (a, b)))

theorem length_listProd {α β : Type} (xs : List α) (ys : List β) :
    (listProd xs ys).length = xs.length * ys.length := by
  induction xs with
  | nil => simp [listProd]
  | cons x xs ih =>
      simp only [listProd, List.flatMap_cons, List.length_append, List.length_map,
        List.length_cons] at *
      rw [ih]; ring

theorem mem_listProd {α β : Type} (xs : List α) (ys : List β) (a : α) (b : β) :
    (a, b) ∈ listProd xs ys ↔ a ∈ xs ∧ b ∈ ys := by
  simp only [listProd, List.mem_flatMap, List.mem_map, Prod.mk.injEq]
  constructor
  · rintro ⟨a', ha', b', hb', rfl, rfl⟩; exact ⟨ha', hb'⟩
  · rintro ⟨ha, hb⟩; exact ⟨a, ha, b, hb, rfl, rfl⟩

theorem nodup_listProd {α β : Type} (xs : List α) (ys : List β)
    (hx : xs.Nodup) (hy : ys.Nodup) : (listProd xs ys).Nodup := by
  induction xs with
  | nil => simp [listProd]
  | cons x xs ih =>
      rw [List.nodup_cons] at hx
      rw [listProd, List.flatMap_cons]
      refine List.Nodup.append ?_ (ih hx.2) ?_
      · exact hy.map fun b₁ b₂ h => (Prod.mk.injEq .. ▸ h).2
      · intro p hp hp'
        rw [List.mem_map] at hp
        obtain ⟨b, _, rfl⟩ := hp
        rw [show (xs.flatMap fun a => ys.map fun b => (a, b)) = listProd xs ys from rfl,
          mem_listProd] at hp'
        exact hx.1 hp'.1

theorem map_fst_listProd {α β : Type} (xs : List α) (ys : List β) :
    (listProd xs ys).map Prod.fst = xs.flatMap (fun a => List.replicate ys.length a) := by
  induction xs with
  | nil => rfl
  | cons x xs ih =>
      rw [listProd, List.flatMap_cons, List.map_append, List.flatMap_cons]
      rw [listProd] at ih
      rw [ih, List.map_map]
      congr 1
      have : ∀ l : List β, l.map (fun b => Prod.fst (x, b)) = List.replicate l.length x := by
        intro l; induction l with
        | nil => rfl
        | cons b l ihl => simp [List.replicate_succ, ihl]
      exact this ys

theorem map_snd_listProd {α β : Type} (xs : List α) (ys : List β) :
    (listProd xs ys).map Prod.snd = xs.flatMap (fun _ => ys) := by
  induction xs with
  | nil => rfl
  | cons x xs ih =>
      rw [listProd, List.flatMap_cons, List.map_append, List.flatMap_cons]
      rw [listProd] at ih
      rw [ih, List.map_map]
      congr 1
      simp

/-! ### `set_multi_index` (parsed_to_zarr.py, lines 8-37)

A record of one array-valued column is `((timestamp, channel), cell)`; the
cell is `some v` when the row holds a real value and `none` when it holds the
`NaN` missing marker (exactly the `isinstance(elm, np.ndarray)` distinction
used later by `get_np_chunk`).  `set_multi_index` takes the unique values of
each dimension, forms their product and reindexes, filling missing pairs with
`NaN`; pandas raises on reindexing a duplicate axis, which we model as
`PyErr.duplicateIndex`. -/

def memB {α : Type} [DecidableEq α] (x : α) (xs : List α) : Bool :=
  xs.any (fun y => decide (y = x))

def nodupB {α : Type} [DecidableEq α] : List α → Bool
  | [] => true
  | x :: xs => (!(memB x xs)) && nodupB xs

theorem memB_iff {α : Type} [DecidableEq α] (x : α) (xs : List α) :
    memB x xs = true ↔ x ∈ xs := by
  simp [memB, List.any_eq_true]

theorem nodupB_iff {α : Type} [DecidableEq α] (xs : List α) :
    nodupB xs = true ↔ xs.Nodup := by
  induction xs with
  | nil => simp [nodupB]
  | cons x xs ih =>
      cases h : memB x xs with
      | true =>
          have hx : x ∈ xs := (memB_iff x xs).1 h
          simp [nodupB, h, List.nodup_cons, hx]
      | false =>
          have hx : x ∉ xs := by
            intro hc
            rw [← memB_iff] at hc
            rw [h] at hc
            cases hc
          simp [nodupB, h, List.nodup_cons, ih, hx]

/-- Value stored at key `k` by the reindex: the (first) input record with that
key if present, the `NaN` fill value (`none`) otherwise. -/
def lookupCell {V : Type} (recs : List ((Nat × Nat) × Option V)) (k : Nat × Nat) :
    Option V :=
  match recs.find? (fun r => decide (r.1 = k)) with
  | some r => r.2
  | none => none

/-- Embedding of `set_multi_index(df, dims)` for `dims = [timestamp, channel]`:
build the product of the per-dimension unique values and reindex with
`fill_value = np.nan`.  Reindexing a frame whose `(timestamp, channel)` index
has duplicates raises in pandas. -/
def setMultiIndex {V : Type} (recs : List ((Nat × Nat) × Option V)) :
    Except PyErr (List ((Nat × Nat) × Option V)) :=
  if nodupB (recs.map Prod.fst) then
    Except.ok ((listProd (pdUnique (recs.map (fun r => r.1.1)))
        (pdUnique (recs.map (fun r => r.1.2)))).map (fun k => (k, lookupCell recs k)))
  else Except.error PyErr.duplicateIndex

theorem find?_map_pair {V : Type} (ks : List (Nat × Nat)) (f : (Nat × Nat) → Option V)
    (k : Nat × Nat) (hk : k ∈ ks) :
    (ks.map (fun x => (x, f x))).find? (fun r => decide (r.1 = k)) = some (k, f k) := by
  induction ks with
  | nil => cases hk
  | cons x ks ih =>
      rw [List.map_cons]
      by_cases hxk : x = k
      · subst hxk
        rw [List.find?_cons_of_pos _ (by simp)]
      · rw [List.find?_cons_of_neg _ (by simp [hxk])]
        apply ih
        rcases List.mem_cons.1 hk with h | h
        · exact absurd h.symm hxk
        · exact h

/-- Unfolding of a successful `setMultiIndex` run. -/
theorem setMultiIndex_ok {V : Type} (recs out : List ((Nat × Nat) × Option V))
    (h : setMultiIndex recs = Except.ok out) :
    (recs.map Prod.fst).Nodup ∧
    out = (listProd (pdUnique (recs.map (fun r => r.1.1)))
        (pdUnique (recs.map (fun r => r.1.2)))).map (fun k => (k, lookupCell recs k)) := by
  rw [setMultiIndex] at h
  by_cases hnd : nodupB (recs.map Prod.fst)
  · rw [if_pos hnd] at h
    exact ⟨(nodupB_iff _).1 hnd, (Except.ok.injEq _ _ ▸ h).symm⟩
  · rw [if_neg hnd] at h
    cases h

/-! ### `more_itertools.chunked_even` (used by `write_chunks`, line 68)

`_chunked_even_finite(iterable, N, n)` computes
`num_lists = ceil(N / n)`, `full_size = ceil(N / num_lists)`,
`num_full = N - (full_size - 1) * num_lists`, and yields `num_full` lists of
`full_size` elements followed by the remaining lists of `full_size - 1`
elements, in input order.  `chunked_even([], n)` yields nothing, and
`divmod(N, 0)` raises `ZeroDivisionError` when `N ≥ 1`. -/

def splitSizes {α : Type} : List Nat → List α → List (List α)
  | [], _ => []
  | k :: ks, xs => xs.take k :: splitSizes ks (xs.drop k)

/-- `num_lists = ceil(N / n)` from `_chunked_even_finite`. -/
def numListsOf (N n : Nat) : Nat := (N + n - 1) / n

/-- `full_size = ceil(N / num_lists)` from `_chunked_even_finite`. -/
def fullSizeOf (N n : Nat) : Nat := (N + numListsOf N n - 1) / numListsOf N n

/-- `num_full = N - partial_size * num_lists` from `_chunked_even_finite`. -/
def numFullOf (N n : Nat) : Nat := N - (fullSizeOf N n - 1) * numListsOf N n

/-- The chunk sizes produced by `_chunked_even_finite` for `N` elements and
size limit `n`: `num_full` chunks of `full_size` followed by the remaining
chunks of `full_size - 1`. -/
def chunkSizeList (N n : Nat) : List Nat :=
  List.replicate (numFullOf N n) (fullSizeOf N n) ++
    List.replicate (numListsOf N n - numFullOf N n) (fullSizeOf N n - 1)

/-- `miter.chunked_even(xs, n)` for `n ≥ 1` (total-function form). -/
def chunkedEven {α : Type} (xs : List α) (n : Nat) : List (List α) :=
  splitSizes (chunkSizeList xs.length n) xs

/-- `miter.chunked_even(xs, n)` with the Python error behaviour: an empty
input yields no chunks before `n` is inspected, and `n = 0` raises
`ZeroDivisionError` otherwise. -/
def chunkedEvenE {α : Type} (xs : List α) (n : Nat) : Except PyErr (List (List α)) :=
  if xs.length = 0 then Except.ok []
  else if n = 0 then Except.error PyErr.zeroDivision
  else Except.ok (chunkedEven xs n)

theorem chunkSizes_spec (N n : Nat) (hN : 1 ≤ N) (hn : 1 ≤ n) :
    1 ≤ fullSizeOf N n ∧ numFullOf N n ≤ numListsOf N n ∧ 1 ≤ numFullOf N n ∧
      numFullOf N n * fullSizeOf N n +
        (numListsOf N n - numFullOf N n) * (fullSizeOf N n - 1) = N := by
  simp only [numFullOf, fullSizeOf, numListsOf]
  have hL0 : 0 < (N + n - 1) / n := (Nat.le_div_iff_mul_le hn).mpr (by omega)
  generalize hLg : (N + n - 1) / n = L at hL0 ⊢
  have hdm : L * ((N + L - 1) / L) + (N + L - 1) % L = N + L - 1 :=
    Nat.div_add_mod (N + L - 1) L
  have hmod : (N + L - 1) % L < L := Nat.mod_lt _ hL0
  generalize hsg : (N + L - 1) / L = s at hdm ⊢
  generalize hrg : (N + L - 1) % L = r at hdm hmod
  have hs0 : s ≠ 0 := by
    intro h0
    rw [h0, Nat.mul_zero] at hdm
    omega
  obtain ⟨t, rfl⟩ : ∃ t, s = t + 1 := ⟨s - 1, by omega⟩
  rw [show L * (t + 1) = L * t + L from by ring] at hdm
  simp only [Nat.add_sub_cancel]
  rw [Nat.mul_comm t L]
  generalize hQ : L * t = Q at hdm ⊢
  have hQle : Q ≤ N - 1 := by omega
  have hfL : N - Q ≤ L := by omega
  refine ⟨by omega, hfL, by omega, ?_⟩
  calc (N - Q) * (t + 1) + (L - (N - Q)) * t
      = (N - Q) + ((N - Q) * t + (L - (N - Q)) * t) := by ring
    _ = (N - Q) + ((N - Q) + (L - (N - Q))) * t := by rw [Nat.add_mul]
    _ = (N - Q) + L * t := by rw [Nat.add_sub_cancel' hfL]
    _ = (N - Q) + Q := by rw [hQ]
    _ = N := by omega

theorem sum_replicate_nat (n k : Nat) : (List.replicate n k).sum = n * k := by
  induction n with
  | zero => simp
  | succ n ih => rw [List.replicate_succ, List.sum_cons, ih]; ring

theorem chunkSizeList_sum (N n : Nat) (hN : 1 ≤ N) (hn : 1 ≤ n) :
    (chunkSizeList N n).sum = N := by
  have h := chunkSizes_spec N n hN hn
  rw [chunkSizeList, List.sum_append, sum_replicate_nat, sum_replicate_nat]
  exact h.2.2.2

theorem chunkSizeList_mem (N n : Nat) :
    ∀ k ∈ chunkSizeList N n, k = fullSizeOf N n ∨ k = fullSizeOf N n - 1 := by
  intro k hk
  simp only [chunkSizeList] at hk
  rw [List.mem_append] at hk
  rcases hk with hk | hk
  · exact Or.inl (List.eq_of_mem_replicate hk)
  · exact Or.inr (List.eq_of_mem_replicate hk)

theorem splitSizes_flatten {α : Type} :
    ∀ (ks : List Nat) (xs : List α), ks.sum = xs.length →
      (splitSizes ks xs).flatten = xs := by
  intro ks
  induction ks with
  | nil =>
      intro xs h
      rw [List.sum_nil] at h
      rw [(List.length_eq_zero).1 h.symm]
      rfl
  | cons k ks ih =>
      intro xs h
      rw [List.sum_cons] at h
      rw [splitSizes, List.flatten_cons, ih (xs.drop k) (by rw [List.length_drop]; omega),
        List.take_append_drop]

theorem splitSizes_map_length {α : Type} :
    ∀ (ks : List Nat) (xs : List α), ks.sum ≤ xs.length →
      (splitSizes ks xs).map List.length = ks := by
  intro ks
  induction ks with
  | nil => intro xs _; rfl
  | cons k ks ih =>
      intro xs h
      rw [List.sum_cons] at h
      rw [splitSizes, List.map_cons, List.length_take,
        ih (xs.drop k) (by rw [List.length_drop]; omega)]
      congr 1
      omega

/-! ### Ragged array writer (`parsed_to_zarr.py`, lines 40-116)

A padded series (the output of `set_multi_index` for one column) is modelled
with its unique timestamps, unique channels, and one row of cells per
timestamp (one cell per channel, in index order).  A cell is `some samples`
when the row holds a NumPy array and `none` when it holds the `NaN` padding
marker. -/

structure PdSeries where
  times : List Nat
  chans : List Nat
  rows : List (List (Option (List Scalar)))
deriving DecidableEq, Repr

/-- The flattened zarr array written by `write_chunks`: the data appended
chunk after chunk (row-major `(time, channel, sample)` order) together with
the declared store chunk shape. -/
structure ZarrArray where
  data : List Scalar
  chunkTime : Nat
  chunkChan : Nat
  chunkSample : Nat
deriving DecidableEq, Repr

/-- `np.max(pd_series.apply(lambda x: x.shape[0] if isinstance(x, np.ndarray) else 0))`
(line 98): the maximum sample-array length over all cells, absent cells
counting 0. -/
def seriesMaxDim (s : PdSeries) : Nat :=
  ((s.rows.flatten).map (fun c => (c.getD []).length)).foldr max 0

/-- `get_np_chunk` (lines 40-49): concatenate each cell's array, substituting
`nan_array` for non-array (`NaN`) cells, then reshape to
`(time_chunk, num_chan, size_elem)`.  NumPy's reshape raises when the total
number of elements does not match; present cells are used as-is even when
shorter than `size_elem` (the in-code TODO notes the missing padding). -/
def getNpChunk (dfChunk : List (Option (List Scalar))) (timeChunk numChan sizeElem : Nat)
    (nanArray : List Scalar) : Except PyErr (List Scalar) :=
  let flat := (dfChunk.map (fun c => c.getD nanArray)).flatten
  if flat.length = timeChunk * numChan * sizeElem then Except.ok flat
  else Except.error PyErr.reshapeMismatch

/-- `pd_series.loc[chunk]`: select, in chunk order, the rows whose timestamp
label is in the chunk, and flatten their cells in index order. -/
def locCells (s : PdSeries) (chunk : List Nat) : List (Option (List Scalar)) :=
  (chunk.flatMap (fun t =>
    ((s.times.zip s.rows).filter (fun p => p.1 == t)).map Prod.snd)).flatten

/-- The loop body of `write_chunks`: build the NumPy block of every chunk and
append them in order (the zarr `array`/`append` calls). -/
def buildChunks (s : PdSeries) (numChan sizeElem : Nat) (nanArray : List Scalar) :
    List (List Nat) → Except PyErr (List Scalar)
  | [] => Except.ok []
  | c :: rest =>
      match getNpChunk (locCells s c) c.length numChan sizeElem nanArray with
      | Except.error e => Except.error e
      | Except.ok nc =>
          match buildChunks s numChan sizeElem nanArray rest with
          | Except.error e => Except.error e
          | Except.ok more => Except.ok (nc ++ more)

/-- `write_chunks` (lines 52-88): chunk the unique times with
`miter.chunked_even`, write the first chunk with store chunk shape
`(max_chunk_len, num_chan, size_elem)`, and append the remaining chunks. -/
def writeChunks (s : PdSeries) (numChan sizeElem : Nat) (nanArray : List Scalar)
    (maxTimeChunk : Nat) : Except PyErr ZarrArray :=
  match chunkedEvenE (pdUnique s.times) maxTimeChunk with
  | Except.error e => Except.error e
  | Except.ok chunks =>
      match buildChunks s numChan sizeElem nanArray chunks with
      | Except.error e => Except.error e
      | Except.ok data =>
          Except.ok ⟨data, (chunks.map List.length).foldr max 0, numChan, sizeElem⟩

/-- The chunk-size computation of `array_col_to_zarr` (lines 98-110):
`elem_bytes = max_dim * 8`;
`num_elements = int(num_mb) * int(1e6 // elem_bytes)`;
`max_num_pings = num_elements // num_chan`.
Python raises `ZeroDivisionError` when `elem_bytes` or `num_chan` is 0. -/
def codeChunkLen (s : PdSeries) (numMb : Nat) : Except PyErr Nat :=
  if seriesMaxDim s * 8 = 0 then Except.error PyErr.zeroDivision
  else if s.chans.length = 0 then Except.error PyErr.zeroDivision
  else Except.ok (numMb * (1000000 / (seriesMaxDim s * 8)) / s.chans.length)

/-- Modelled from the spec (section 4.2), for comparison with `codeChunkLen`:
`elements_per_budget = floor(budget_mb * 1e6 / elem_bytes)`;
`chunk_len = elements_per_budget / channel_count` (integer division,
minimum 1). -/
def specChunkLen (maxSampleLength channelCount budgetMb : Nat) : Nat :=
  max (budgetMb * 1000000 / (maxSampleLength * 8) / channelCount) 1

/-- `array_col_to_zarr` (lines 91-116): compute the chunk length and the NaN
padding array, then run `write_chunks`. -/
def arrayColToZarr (s : PdSeries) (numMb : Nat) : Except PyErr ZarrArray :=
  match codeChunkLen s numMb with
  | Except.error e => Except.error e
  | Except.ok maxNumPings =>
      writeChunks s s.chans.length (seriesMaxDim s)
        (List.replicate (seriesMaxDim s) Scalar.nan) maxNumPings

/-! ### Store combine engine (`convert_ui.py`)

A source store is a file identifier plus the one filename property the code
inspects (whether the name contains the `_cw` marker used by
`split_into_groups`). -/

structure SFile where
  id : Nat
  cw : Bool
deriving DecidableEq, Repr

/-- The `Convert` object state read by `combine_files`. -/
structure ConvertState where
  sonarModel : String
  sourceFile : List SFile
  outputFile : List SFile
  extraFiles : List SFile
deriving DecidableEq, Repr

/-- `Convert._check_param_consistency` (lines 201-215): the body is a stub
that always returns `True` (the TODO notes the real checks are undecided). -/
def checkParamConsistency (_st : ConvertState) : Bool := true

/-- `split_into_groups` (lines 289-299): for EK80, split into the files
without and with the `_cw` filename marker (appending in input order);
otherwise a single group. -/
def splitIntoGroups (model : String) (files : List SFile) : List (List SFile) :=
  if model = "EK80" then
    [files.filter (fun f => f.cw = false), files.filter (fun f => f.cw = true)]
  else [files]

/-- One write performed by the combine loop: saving a group built from the
given source files, or the vendor filter-coefficient copy. -/
inductive WriteAction where
  | saveGroup (group : String) (sources : List SFile)
  | vendorCopy (source : SFile)
deriving DecidableEq, Repr

/-- The sequence of `_save` calls of one iteration of the combine loop
(lines 321-367): Top-level, Provenance and Sonar from the first file; Beam
from all files; Environment, Platform, Vendor and Platform/NMEA depending on
the model; for EK80 finally `copy_vendor` from the first file.  An empty file
group raises `IndexError` at `file_group[0]`. -/
def groupWrites (model : String) (fg : List SFile) : Except PyErr (List WriteAction) :=
  match fg with
  | [] => Except.error PyErr.indexError
  | f0 :: _ =>
      Except.ok
        ([WriteAction.saveGroup "Top-level" [f0],
          WriteAction.saveGroup "Provenance" [f0],
          WriteAction.saveGroup "Sonar" [f0],
          WriteAction.saveGroup "Beam" fg] ++
          (if model = "AZFP" then [WriteAction.saveGroup "Environment" fg]
           else [WriteAction.saveGroup "Environment" [f0]]) ++
          (if model = "AZFP" then [WriteAction.saveGroup "Platform" [f0]]
           else [WriteAction.saveGroup "Platform" fg]) ++
          (if model = "AZFP" then [WriteAction.saveGroup "Vendor" fg] else []) ++
          (if model = "EK80" ∨ model = "EK60"
           then [WriteAction.saveGroup "Platform/NMEA" fg] else []) ++
          (if model = "EK80" then [WriteAction.vendorCopy f0] else []))

/-- The combine loop over all file groups, accumulating writes; an error in a
group aborts the remaining groups. -/
def allGroupWrites (model : String) : List (List SFile) → List WriteAction × Option PyErr
  | [] => ([], none)
  | fg :: rest =>
      match groupWrites model fg with
      | Except.error e => ([], some e)
      | Except.ok ws =>
          match allGroupWrites model rest with
          | (ws', e) => (ws ++ ws', e)

/-- The deletion loop (lines 369-372) with `Convert._remove` (lines 217-223):
delete each file in order; `_remove` has no exception handling, so the first
failing deletion (modelled by membership in `undeletable`) raises and the
remaining files are never attempted.  Returns the files attempted, in order,
and the propagated error if any. -/
def removeAll (files undeletable : List SFile) : List SFile × Option PyErr :=
  match files with
  | [] => ([], none)
  | f :: rest =>
      if f ∈ undeletable then ([f], some (PyErr.removeError f.id))
      else
        match removeAll rest undeletable with
        | (att, e) => (f :: att, e)

instance instDecEqExcept {ε α : Type} [DecidableEq ε] [DecidableEq α] :
    DecidableEq (Except ε α) := fun a b =>
  match a, b with
  | Except.error e1, Except.error e2 =>
      if h : e1 = e2 then isTrue (by rw [h])
      else isFalse (by intro hc; cases hc; exact h rfl)
  | Except.ok v1, Except.ok v2 =>
      if h : v1 = v2 then isTrue (by rw [h])
      else isFalse (by intro hc; cases hc; exact h rfl)
  | Except.error _, Except.ok _ => isFalse (by intro hc; cases hc)
  | Except.ok _, Except.error _ => isFalse (by intro hc; cases hc)

/-- The observable outcome of `combine_files`: the returned value or raised
exception, the writes performed, and the deletions attempted. -/
structure CombineOutcome where
  result : Except PyErr Bool
  writes : List WriteAction
  attemptedDeletes : List SFile
deriving DecidableEq, Repr

/-- `Convert.combine_files` (lines 225-373).  Guards: fewer than 2 source
files, or a failing `_check_param_consistency`, return `False` with no
writes and no deletions.  `file_groups` is assigned only under
`self.sonar_model == 'EK80'` (line 304-305); for any other model the loop
header `for i, file_group in enumerate(file_groups)` raises
`UnboundLocalError` before anything is written or deleted.  On the EK80 path
the groups are written, then, if `remove_orig`, each of
`src_files + self.extra_files` is deleted in order. -/
def combineFiles (st : ConvertState) (srcFiles : Option (List SFile))
    (removeOrig : Bool) (undeletable : List SFile) : CombineOutcome :=
  if st.sourceFile.length < 2 then ⟨Except.ok false, [], []⟩
  else if checkParamConsistency st = false then ⟨Except.ok false, [], []⟩
  else
    let src := srcFiles.getD st.outputFile
    if st.sonarModel = "EK80" then
      let fileGroups := splitIntoGroups st.sonarModel (src ++ st.extraFiles)
      match allGroupWrites st.sonarModel fileGroups with
      | (ws, some e) => ⟨Except.error e, ws, []⟩
      | (ws, none) =>
          if removeOrig then
            match removeAll (src ++ st.extraFiles) undeletable with
            | (att, some e) => ⟨Except.error e, ws, att⟩
            | (att, none) => ⟨Except.ok true, ws, att⟩
          else ⟨Except.ok true, ws, []⟩
    else ⟨Except.error (PyErr.unboundLocal "file_groups"), [], []⟩

/-! ### `copy_vendor` (`convert_ui.py`, lines 264-287)

The vendor group of a netCDF file: attributes, dimensions and compound-typed
variables (complex64 pairs). -/

structure NcVariable where
  name : String
  dims : List String
  vals : List (Int × Int)
deriving DecidableEq, Repr

structure NcGroup where
  attrs : List (String × Int)
  dims : List (String × Nat)
  vars : List NcVariable
deriving DecidableEq, Repr

/-- `copy_vendor(src_file, trg_file)`: copy the attributes and dimensions of
the source Vendor group and re-create each variable with the same name and
dimensions — but with `data = np.empty(len(v), complex64)` as its values
(uninitialized memory, modelled by the arbitrary function `npEmpty` of the
length), never reading the source variable's values. -/
def copyVendor (npEmpty : Nat → List (Int × Int)) (src : NcGroup) : NcGroup :=
  { attrs := src.attrs,
    dims := src.dims,
    vars := src.vars.map (fun v =>
      { name := v.name, dims := v.dims, vals := npEmpty v.vals.length }) }

/-! ### Concrete instances used by witnesses and counterexamples -/

/-- Two timestamps, one channel; the two present sample arrays have lengths
2 and 3, so the reference length (`max_dim`) is 3 and the first cell is
shorter than it. -/
def exSeries : PdSeries :=
  ⟨[0, 1], [7], [[some [Scalar.val 1, Scalar.val 2]],
                 [some [Scalar.val 3, Scalar.val 4, Scalar.val 5]]]⟩

/-- One cell whose sample array has 125001 elements, so
`elem_bytes = 1000008 > 1e6`. -/
def exSeriesBig : PdSeries :=
  ⟨[0], [7], [[some (List.replicate 125001 (Scalar.val 0))]]⟩

/-- One cell holding the `NaN` missing marker: every record has absent
samples, so `max_dim = 0`. -/
def exSeriesDegenerate : PdSeries := ⟨[0], [5], [[none]]⟩

/-- C2: for every list of at least one unique timestamp and every chunk size
limit of at least one time step, the `chunked_even` partition used by
`write_chunks` concatenates back to the input (no overlap, no gap, lengths
summing to the total), and any two chunk lengths differ by at most 1. -/
theorem claim_C2_chunk_partition (xs : List Nat) (n : Nat)
    (h1 : 1 ≤ xs.length) (h2 : 1 ≤ n) :
    chunkedEvenE xs n = Except.ok (chunkedEven xs n) ∧
    (chunkedEven xs n).flatten = xs ∧
    ((chunkedEven xs n).map List.length).sum = xs.length ∧
    ∀ c₁ ∈ chunkedEven xs n, ∀ c₂ ∈ chunkedEven xs n, c₁.length ≤ c₂.length + 1 := by
  have hsum := chunkSizeList_sum xs.length n h1 h2
  have hmap : (chunkedEven xs n).map List.length = chunkSizeList xs.length n := by
    rw [chunkedEven]
    exact splitSizes_map_length _ _ (le_of_eq hsum)
  refine ⟨?_, ?_, ?_, ?_⟩
  · rw [chunkedEvenE, if_neg (by omega), if_neg (by omega)]
  · rw [chunkedEven]
    exact splitSizes_flatten _ _ hsum
  · rw [hmap]
    exact hsum
  · intro c₁ hc₁ c₂ hc₂
    have m1 : c₁.length ∈ chunkSizeList xs.length n :=
      hmap ▸ List.mem_map_of_mem List.length hc₁
    have m2 : c₂.length ∈ chunkSizeList xs.length n :=
      hmap ▸ List.mem_map_of_mem List.length hc₂
    have hfs : 1 ≤ fullSizeOf xs.length n := (chunkSizes_spec xs.length n h1 h2).1
    rcases chunkSizeList_mem xs.length n _ m1 with e1 | e1 <;>
      rcases chunkSizeList_mem xs.length n _ m2 with e2 | e2 <;> omega

/-- Witness for C2 at five timestamps with chunk size limit 3
(chunks `[10,11,12]` and `[13,14]`). -/
theorem claim_C2_chunk_partition_witness :
    1 ≤ ([10, 11, 12, 13, 14] : List Nat).length ∧ 1 ≤ 3 ∧
    (chunkedEvenE [10, 11, 12, 13, 14] 3 =
        Except.ok (chunkedEven [10, 11, 12, 13, 14] 3) ∧
      (chunkedEven [10, 11, 12, 13, 14] 3).flatten = [10, 11, 12, 13, 14] ∧
      ((chunkedEven [10, 11, 12, 13, 14] 3).map List.length).sum =
        ([10, 11, 12, 13, 14] : List Nat).length ∧
      ∀ c₁ ∈ chunkedEven [10, 11, 12, 13, 14] 3,
        ∀ c₂ ∈ chunkedEven [10, 11, 12, 13, 14] 3, c₁.length ≤ c₂.length + 1) :=
  ⟨by decide, by decide,
    claim_C2_chunk_partition [10, 11, 12, 13, 14] 3 (by decide) (by decide)⟩

/-- C1 (code bug): at a chunk whose present cells have lengths 2 and 3 with
reference length 3, the code concatenates the short array unpadded, so the
flattened length is 5 instead of 2 * 1 * 3 = 6 and the reshape raises,
instead of right-padding the short cell with NaN as the claim states. -/
theorem claim_C1_ragged_pad_eval :
    getNpChunk [some [Scalar.val 1, Scalar.val 2],
        some [Scalar.val 3, Scalar.val 4, Scalar.val 5]] 2 1 3
        (List.replicate 3 Scalar.nan) = Except.error PyErr.reshapeMismatch ∧
    arrayColToZarr exSeries 1 = Except.error PyErr.reshapeMismatch := by
  constructor
  · rfl
  · rfl

/-- C3 (counterexample): the code computes
`num_mb * (10^6 / elem_bytes) / num_chan` with no minimum, which differs from
the claimed `floor(budget_mb * 1e6 / elem_bytes) / channel_count` with
minimum 1: at `max_dim = 3, num_chan = 1, num_mb = 2` the code yields 83332
while the claim yields 83333, and at `max_dim = 125001, num_chan = 1,
num_mb = 1` the code yields 0 while the claim's minimum is 1. -/
theorem claim_C3_chunk_len_counterexample :
    codeChunkLen exSeries 2 = Except.ok 83332 ∧
    specChunkLen 3 1 2 = 83333 ∧
    seriesMaxDim exSeries = 3 ∧ exSeries.chans.length = 1 ∧
    codeChunkLen exSeriesBig 1 = Except.ok 0 ∧
    specChunkLen 125001 1 1 = 1 ∧
    seriesMaxDim exSeriesBig = 125001 ∧ exSeriesBig.chans.length = 1 := by
  have hbig : seriesMaxDim exSeriesBig = 125001 := by
    show ((([[some (List.replicate 125001 (Scalar.val 0))]] :
        List (List (Option (List Scalar)))).flatten).map
        (fun c => (c.getD []).length)).foldr max 0 = 125001
    rw [List.flatten_cons, List.flatten_nil, List.append_nil, List.map_cons, List.map_nil,
      List.foldr_cons, List.foldr_nil]
    rw [show (some (List.replicate 125001 (Scalar.val 0))).getD [] =
        List.replicate 125001 (Scalar.val 0) from rfl]
    rw [List.length_replicate]
    simp
  refine ⟨rfl, rfl, rfl, rfl, ?_, rfl, hbig, rfl⟩
  rw [codeChunkLen, hbig, show exSeriesBig.chans = [7] from rfl]
  norm_num

/-- C3 (amended): for every series with at least one nonempty sample array
and at least one channel, the code's chunk length is
`num_mb * floor(1e6 / (max_dim * 8))` integer-divided by the channel count,
with no minimum applied. -/
theorem claim_C3_chunk_len_amended (s : PdSeries) (numMb : Nat)
    (h1 : 1 ≤ seriesMaxDim s) (h2 : 1 ≤ s.chans.length) :
    codeChunkLen s numMb =
      Except.ok (numMb * (1000000 / (seriesMaxDim s * 8)) / s.chans.length) := by
  rw [codeChunkLen, if_neg (by omega), if_neg (by omega)]

/-- Witness for the amended C3 at `exSeries` with a 2 Mb budget. -/
theorem claim_C3_chunk_len_amended_witness :
    1 ≤ seriesMaxDim exSeries ∧ 1 ≤ exSeries.chans.length ∧
    codeChunkLen exSeries 2 =
      Except.ok (2 * (1000000 / (seriesMaxDim exSeries * 8)) / exSeries.chans.length) :=
  ⟨by decide, by decide, claim_C3_chunk_len_amended exSeries 2 (by decide) (by decide)⟩

/-- C8: when the maximum observed sample length is 0 (`elem_bytes == 0`) or
the channel count is 0, `array_col_to_zarr` raises a division error before
any chunk is computed, so the result carries no written array. -/
theorem claim_C8_degenerate_input (s : PdSeries) (numMb : Nat)
    (h : seriesMaxDim s = 0 ∨ s.chans.length = 0) :
    arrayColToZarr s numMb = Except.error PyErr.zeroDivision := by
  rcases h with h | h
  · rw [arrayColToZarr, codeChunkLen, if_pos (by omega)]
  · by_cases hm : seriesMaxDim s * 8 = 0
    · rw [arrayColToZarr, codeChunkLen, if_pos hm]
    · rw [arrayColToZarr, codeChunkLen, if_neg hm, if_pos h]

/-- Witness for C8 at a series whose only cell is the missing marker. -/
theorem claim_C8_degenerate_input_witness :
    (seriesMaxDim exSeriesDegenerate = 0 ∨ exSeriesDegenerate.chans.length = 0) ∧
    arrayColToZarr exSeriesDegenerate 100 = Except.error PyErr.zeroDivision :=
  ⟨Or.inl (by decide), claim_C8_degenerate_input exSeriesDegenerate 100 (Or.inl (by decide))⟩

/-- Records for two timestamps and two channels with the pairs `(0,20)` and
`(1,10)` absent. -/
def exRecs : List ((Nat × Nat) × Option Nat) := [((0, 10), some 5), ((1, 20), some 6)]

/-- The padded view of `exRecs`: the full `2 × 2` product with the two
missing pairs filled by the `NaN` marker. -/
def exOut : List ((Nat × Nat) × Option Nat) :=
  [((0, 10), some 5), ((0, 20), none), ((1, 10), none), ((1, 20), some 6)]

theorem pdUnique_cons_ne_nil {α : Type} [DecidableEq α] (x : α) (l : List α) :
    pdUnique (x :: l) ≠ [] := by
  rw [pdUnique, pdUniqueAux, if_neg (List.not_mem_nil x)]
  exact List.cons_ne_nil _ _

/-- C4: a successful `set_multi_index` run produces exactly the product of
the unique timestamps and unique channels: the output size is the product of
the unique counts, every key appears exactly once, a key appears iff its
timestamp and channel occur in the input, and every key absent from the
input is populated with the explicit `NaN` marker rather than omitted. -/
theorem claim_C4_padded_index (V : Type) (recs out : List ((Nat × Nat) × Option V))
    (h : setMultiIndex recs = Except.ok out) :
    out.length = (pdUnique (recs.map (fun r => r.1.1))).length *
      (pdUnique (recs.map (fun r => r.1.2))).length ∧
    (out.map Prod.fst).Nodup ∧
    (∀ k : Nat × Nat, k ∈ out.map Prod.fst ↔
      (k.1 ∈ recs.map (fun r => r.1.1) ∧ k.2 ∈ recs.map (fun r => r.1.2))) ∧
    (∀ k : Nat × Nat, k ∈ out.map Prod.fst → k ∉ recs.map Prod.fst →
      (k, (none : Option V)) ∈ out) := by
  obtain ⟨hnd, hout⟩ := setMultiIndex_ok recs out h
  have hkeys : out.map Prod.fst =
      listProd (pdUnique (recs.map (fun r => r.1.1)))
        (pdUnique (recs.map (fun r => r.1.2))) := by
    rw [hout, List.map_map,
      show (Prod.fst ∘ fun k : Nat × Nat => (k, lookupCell recs k)) = id from rfl,
      List.map_id]
  refine ⟨?_, ?_, ?_, ?_⟩
  · rw [hout, List.length_map, length_listProd]
  · rw [hkeys]
    exact nodup_listProd _ _ (nodup_pdUnique _) (nodup_pdUnique _)
  · intro k
    obtain ⟨k1, k2⟩ := k
    rw [hkeys, mem_listProd, mem_pdUnique, mem_pdUnique]
  · intro k hk hnotin
    rw [hkeys] at hk
    have hcell : lookupCell recs k = none := by
      have hfind : recs.find? (fun r => decide (r.1 = k)) = none := by
        rw [List.find?_eq_none]
        intro r hr
        simp only [decide_eq_true_eq]
        intro hrk
        exact hnotin (hrk ▸ List.mem_map_of_mem Prod.fst hr)
      rw [lookupCell, hfind]
    rw [hout]
    exact List.mem_map.2 ⟨k, hk, by rw [hcell]⟩

/-- Witness for C4 at `exRecs`, whose padded view is `exOut`. -/
theorem claim_C4_padded_index_witness :
    setMultiIndex exRecs = Except.ok exOut ∧
    (exOut.length = (pdUnique (exRecs.map (fun r => r.1.1))).length *
        (pdUnique (exRecs.map (fun r => r.1.2))).length ∧
      (exOut.map Prod.fst).Nodup ∧
      (∀ k : Nat × Nat, k ∈ exOut.map Prod.fst ↔
        (k.1 ∈ exRecs.map (fun r => r.1.1) ∧ k.2 ∈ exRecs.map (fun r => r.1.2))) ∧
      (∀ k : Nat × Nat, k ∈ exOut.map Prod.fst → k ∉ exRecs.map Prod.fst →
        (k, (none : Option Nat)) ∈ exOut)) :=
  ⟨by rfl, claim_C4_padded_index Nat exRecs exOut (by rfl)⟩

/-- Rebuilding a padded product view leaves it unchanged: the builder applied
to `(listProd uts ucs).map (fun k => (k, cell k))` returns it as-is. -/
theorem setMultiIndex_pad_again {V : Type} (uts ucs : List Nat)
    (hu : uts.Nodup) (hc : ucs.Nodup) (hune : uts ≠ []) (hcne : ucs ≠ [])
    (cell : (Nat × Nat) → Option V) :
    setMultiIndex ((listProd uts ucs).map (fun k => (k, cell k))) =
      Except.ok ((listProd uts ucs).map (fun k => (k, cell k))) := by
  have hkeys : ((listProd uts ucs).map (fun k => (k, cell k))).map Prod.fst =
      listProd uts ucs := by
    rw [List.map_map,
      show (Prod.fst ∘ fun k : Nat × Nat => (k, cell k)) = id from rfl, List.map_id]
  have hnd : (((listProd uts ucs).map (fun k => (k, cell k))).map Prod.fst).Nodup := by
    rw [hkeys]
    exact nodup_listProd _ _ hu hc
  rw [setMultiIndex, if_pos ((nodupB_iff _).2 hnd)]
  have hfst : ((listProd uts ucs).map (fun k => (k, cell k))).map (fun r => r.1.1) =
      uts.flatMap (fun t => List.replicate ucs.length t) := by
    rw [show (fun r : (Nat × Nat) × Option V => r.1.1) = (Prod.fst ∘ Prod.fst) from rfl,
      ← List.map_map, hkeys, map_fst_listProd]
  have hsnd : ((listProd uts ucs).map (fun k => (k, cell k))).map (fun r => r.1.2) =
      uts.flatMap (fun _ => ucs) := by
    rw [show (fun r : (Nat × Nat) × Option V => r.1.2) = (Prod.snd ∘ Prod.fst) from rfl,
      ← List.map_map, hkeys, map_snd_listProd]
  have huts' : pdUnique (((listProd uts ucs).map (fun k => (k, cell k))).map
      (fun r => r.1.1)) = uts := by
    rw [hfst, pdUnique]
    refine pdUniqueAux_flatMap_replicate ucs.length ?_ uts [] hu (by simp)
    cases ucs with
    | nil => exact absurd rfl hcne
    | cons _ _ => simp
  have hucs' : pdUnique (((listProd uts ucs).map (fun k => (k, cell k))).map
      (fun r => r.1.2)) = ucs := by
    rw [hsnd]
    exact pdUnique_flatMap_const uts hune ucs hc
  rw [huts', hucs']
  congr 1
  refine List.map_congr_left ?_
  intro k hk
  have hfind : (((listProd uts ucs).map (fun x => (x, cell x))).find?
      (fun r => decide (r.1 = k))) = some (k, cell k) :=
    find?_map_pair _ _ k hk
  rw [lookupCell, hfind]

/-- C5: the builder is idempotent — running `set_multi_index` on its own
padded output returns that output unchanged (no further growth of the
index). -/
theorem claim_C5_idempotent (V : Type) (recs out : List ((Nat × Nat) × Option V))
    (h : setMultiIndex recs = Except.ok out) :
    setMultiIndex out = Except.ok out := by
  obtain ⟨hnd, hout⟩ := setMultiIndex_ok recs out h
  cases recs with
  | nil =>
      rw [hout]
      rfl
  | cons r rs =>
      rw [hout]
      refine setMultiIndex_pad_again _ _ (nodup_pdUnique _) (nodup_pdUnique _) ?_ ?_ _
      · rw [List.map_cons]
        exact pdUnique_cons_ne_nil _ _
      · rw [List.map_cons]
        exact pdUnique_cons_ne_nil _ _

/-- Witness for C5 at `exRecs`: rebuilding the padded view `exOut` is a
no-op. -/
theorem claim_C5_idempotent_witness :
    setMultiIndex exRecs = Except.ok exOut ∧ setMultiIndex exOut = Except.ok exOut :=
  ⟨by rfl, claim_C5_idempotent Nat exRecs exOut (by rfl)⟩

def fileA : SFile := ⟨0, false⟩

def fileB : SFile := ⟨1, true⟩

def fileC : SFile := ⟨2, false⟩

/-- An EK80 conversion with a single source file. -/
def stOneSource : ConvertState := ⟨"EK80", [fileA], [fileA], []⟩

/-- An EK60 conversion with two source files. -/
def stEK60 : ConvertState := ⟨"EK60", [fileA, fileC], [fileA, fileC], []⟩

/-- An EK80 conversion with two source files (one CW) and one extra file. -/
def stEK80 : ConvertState := ⟨"EK80", [fileA, fileB], [fileA, fileB], [fileC]⟩

/-- C6: with fewer than 2 source files, or a failing parameter-consistency
check, `combine_files` returns `False` (a skip indicator, not an exception),
writes no combined output, and attempts no deletion. -/
theorem claim_C6_combine_skip (st : ConvertState) (srcFiles : Option (List SFile))
    (removeOrig : Bool) (undeletable : List SFile)
    (h : st.sourceFile.length < 2 ∨ checkParamConsistency st = false) :
    combineFiles st srcFiles removeOrig undeletable =
      ⟨Except.ok false, [], []⟩ := by
  rcases h with h | h
  · rw [combineFiles, if_pos h]
  · exact absurd h (by rw [checkParamConsistency]; intro hc; cases hc)

/-- Witness for C6: a combine invoked over a single source store. -/
theorem claim_C6_combine_skip_witness :
    (stOneSource.sourceFile.length < 2 ∨ checkParamConsistency stOneSource = false) ∧
    combineFiles stOneSource none true [] = ⟨Except.ok false, [], []⟩ :=
  ⟨Or.inl (by decide),
    claim_C6_combine_skip stOneSource none true [] (Or.inl (by decide))⟩

/-- C10: for a non-EK80 model (EK60 or AZFP) with at least 2 source files and
a passing consistency check, `combine_files` reads the unassigned local
`file_groups` and raises `UnboundLocalError` before anything is written or
deleted. -/
theorem claim_C10_unbound_local (st : ConvertState) (srcFiles : Option (List SFile))
    (removeOrig : Bool) (undeletable : List SFile)
    (h1 : st.sonarModel = "EK60" ∨ st.sonarModel = "AZFP")
    (h2 : 2 ≤ st.sourceFile.length)
    (h3 : checkParamConsistency st = true) :
    combineFiles st srcFiles removeOrig undeletable =
      ⟨Except.error (PyErr.unboundLocal "file_groups"), [], []⟩ := by
  have hm : ¬ st.sonarModel = "EK80" := by
    rcases h1 with h | h <;> rw [h] <;> decide
  rw [combineFiles, if_neg (by omega), if_neg (by rw [h3]; intro hc; cases hc),
    if_neg hm]

/-- Witness for C10: an EK60 combine over two source files. -/
theorem claim_C10_unbound_local_witness :
    (stEK60.sonarModel = "EK60" ∨ stEK60.sonarModel = "AZFP") ∧
    2 ≤ stEK60.sourceFile.length ∧ checkParamConsistency stEK60 = true ∧
    combineFiles stEK60 none true [] =
      ⟨Except.error (PyErr.unboundLocal "file_groups"), [], []⟩ :=
  ⟨Or.inl (by decide), by decide, by decide,
    claim_C10_unbound_local stEK60 none true [] (Or.inl (by decide)) (by decide)
      (by decide)⟩

/-- C9 (counterexample): an EK80 combine over `[fileA, fileB]` with extra
file `fileC`, where deleting `fileB` fails: the combine performed its writes,
but the deletion loop attempted only `[fileA, fileB]`, never attempted
`fileC`, and the failure propagated as an exception instead of being
reported alongside continued deletions. -/
theorem claim_C9_deletion_counterexample :
    (combineFiles stEK80 none true [fileB]).result =
      Except.error (PyErr.removeError 1) ∧
    (combineFiles stEK80 none true [fileB]).attemptedDeletes = [fileA, fileB] ∧
    fileC ∉ (combineFiles stEK80 none true [fileB]).attemptedDeletes ∧
    (combineFiles stEK80 none true [fileB]).writes ≠ [] := by
  refine ⟨by rfl, by rfl, by decide, by decide⟩

/-- C9 (amended): deletions are attempted in input order and the first
failing deletion raises immediately: with all files before `f` deletable and
`f` undeletable, exactly the files up to and including `f` are attempted and
the `f` error propagates, aborting the rest. -/
theorem claim_C9_deletion_amended (before after : List SFile) (f : SFile)
    (undeletable : List SFile)
    (h1 : ∀ g ∈ before, g ∉ undeletable) (h2 : f ∈ undeletable) :
    removeAll (before ++ f :: after) undeletable =
      (before ++ [f], some (PyErr.removeError f.id)) := by
  induction before with
  | nil =>
      rw [List.nil_append, removeAll, if_pos h2]
      rfl
  | cons g before ih =>
      rw [List.cons_append, removeAll,
        if_neg (h1 g (List.mem_cons_self _ _)),
        ih fun g' hg' => h1 g' (List.mem_cons_of_mem _ hg')]
      rfl

/-- Witness for the amended C9: files `[fileA, fileB, fileC]` with `fileB`
undeletable. -/
theorem claim_C9_deletion_amended_witness :
    (∀ g ∈ [fileA], g ∉ [fileB]) ∧ fileB ∈ [fileB] ∧
    removeAll ([fileA] ++ fileB :: [fileC]) [fileB] =
      ([fileA] ++ [fileB], some (PyErr.removeError fileB.id)) :=
  ⟨by decide, by decide,
    claim_C9_deletion_amended [fileA] [fileC] fileB [fileB] (by decide) (by decide)⟩

/-- Vendor group with one variable holding the value `(5, 7)`. -/
def exVendor1 : NcGroup :=
  ⟨[("decimation", 4)], [("channel", 1)], [⟨"coeffs", ["channel"], [(5, 7)]⟩]⟩

/-- The same vendor group but with value `(1, 2)`. -/
def exVendor2 : NcGroup :=
  ⟨[("decimation", 4)], [("channel", 1)], [⟨"coeffs", ["channel"], [(1, 2)]⟩]⟩

/-- A concrete `np.empty`: memory that happens to contain zeros. -/
def exEmpty : Nat → List (Int × Int) := fun n => List.replicate n (0, 0)

/-- C7 (code bug): `copy_vendor` writes `np.empty` data into each re-created
variable and never reads the source values, so two first sources differing
only in their filter-coefficient values produce identical combined vendor
blocks, and the values written are the uninitialized buffer, not the
source's — the transfer is not a byte-for-byte copy of the variable
values. -/
theorem claim_C7_vendor_copy_bug :
    copyVendor exEmpty exVendor1 = copyVendor exEmpty exVendor2 ∧
    exVendor1.vars.map NcVariable.vals = [[(5, 7)]] ∧
    exVendor2.vars.map NcVariable.vals = [[(1, 2)]] ∧
    (copyVendor exEmpty exVendor1).vars.map NcVariable.vals = [[(0, 0)]] ∧
    (copyVendor exEmpty exVendor1).vars.map NcVariable.vals ≠
      exVendor1.vars.map NcVariable.vals := by
  refine ⟨by rfl, by rfl, by rfl, by rfl, by decide⟩

end Echopype
